import Mathlib

/-
Verification of the icon-migration scripts of gbrowdy/dungeon-delver.

The repository contains three text-rewriting scripts over TypeScript data
files, modelled here over `List Char` (one entry per character of the
decoded document):

The script `apply_icon_updates.py` (function `replace_icons_in_file`,
direct mode) runs, for each mapping entry `(old, new)`,
`content.replace("icon: '" + re.escape(old) + "'", "icon: '" + new + "'", 1)`,
a plain first-occurrence substring replacement, then writes the file back
exactly when the content changed.

The script `execute_wave4_updates.py` (function `replace_icons_in_file`,
direct mode, variant) runs the same loop guarded by
`if pattern in content`, additionally counting the entries that fired.

The script `update_path_icons.py` (function `update_file`, anchored mode)
runs, for each entry `(ability_id, new)`, `re.sub` with count 1 on the
pattern `(id:\s*'{ability_id}',[\s\S]*?)icon:\s*'[^']+'` with template
`\1icon: '{new}'`, then writes back exactly when the content changed.
Its mapping tables are Python sets, so the loop's iteration order is
unspecified; the model takes the order as a list parameter.

The script `update_icons_constants.py` (function `update_icons_constants`,
the section injector) is guarded by `"PATH_ABILITY_ICONS" in content`;
past the guard it replaces every occurrence of the anchor comment by the
new block followed by the anchor, replaces the old `ALL_ICONS` export
text by the extended one, and then writes the file back unconditionally,
returning True.

Python's `\s` is modelled by its ASCII fragment (space, tab, newline,
carriage return, vertical tab, form feed); the documents handled by the
scripts are ASCII.  The `re.sub` replacement template is modelled as
plain concatenation, which agrees with Python for replacement values
containing no backslash (every replacement value in the repository is of
the form `ability-paths-...`, backslash-free).
-/

set_option maxRecDepth 16384

/-- Decode a backslash-free and quote-free string literal to a character
list. -/
def toL (s : String) : List Char := s.toList

/-- The single-quote character, written by code point to keep source plain. -/
def q : Char := Char.ofNat 39

/-- The backslash character. -/
def bsl : Char := Char.ofNat 92

/-- ASCII fragment of Python's `\s` character class. -/
def isPySpace (c : Char) : Bool :=
  c == ' ' || c == Char.ofNat 9 || c == Char.ofNat 10 || c == Char.ofNat 13 ||
    c == Char.ofNat 11 || c == Char.ofNat 12

/-- The characters escaped by Python's `re.escape` (3.7 and later):
`( ) [ ] { } ? * + - | ^ $ \ . & ~ #` and the five ASCII whitespace
characters together with the space. -/
def reSpecialChars : List Char :=
  ['(', ')', '[', ']', Char.ofNat 123, Char.ofNat 125, '?', '*', '+', '-',
   '|', '^', '$', Char.ofNat 92, '.', '&', '~', Char.ofNat 35, ' ',
   Char.ofNat 9, Char.ofNat 10, Char.ofNat 13, Char.ofNat 11, Char.ofNat 12]

/-- Python `re.escape`: prefix every special character with a backslash. -/
def reEscape (s : List Char) : List Char :=
  s.flatMap (fun c => if c ∈ reSpecialChars then [bsl, c] else [c])

/-- The literal text `icon: 'v'` (field name, one space, quoted value):
the direct-mode search pattern, the direct-mode replacement and the
anchored-mode replacement are all of this shape. -/
def iconLit (v : List Char) : List Char :=
  'i' :: 'c' :: 'o' :: 'n' :: ':' :: ' ' :: q :: (v ++ [q])

/-- Python `s.replace(old, new, 1)`: replace the leftmost occurrence of
`old` (the empty pattern matches at position 0), leaving `s` unchanged
when `old` does not occur. -/
def replaceFirst : List Char → List Char → List Char → List Char
  | [], old, new => if old = [] then new else []
  | c :: cs, old, new =>
    if old <+: (c :: cs) then new ++ (c :: cs).drop old.length
    else c :: replaceFirst cs old new

/-- One direct-mode entry of `replace_icons_in_file`
(`apply_icon_updates.py` lines 22-27): replace the first occurrence of
`icon: '{re.escape(old)}'` by `icon: '{new}'`. -/
def directStep (content : List Char) (e : List Char × List Char) : List Char :=
  replaceFirst content (iconLit (reEscape e.1)) (iconLit e.2)

/-- The direct-mode rewrite loop: the mapping entries applied in list
order, each consuming at most the first remaining occurrence. -/
def directApply (reps : List (List Char × List Char)) (content : List Char) : List Char :=
  reps.foldl directStep content

/-- Model of `apply_icon_updates.replace_icons_in_file`, file I/O abstracted: the
result text together with the return value, which is `true` exactly when
the text changed, in which case (and only then) the file is rewritten. -/
def replace_icons_in_file (reps : List (List Char × List Char)) (content : List Char) :
    List Char × Bool :=
  let c := directApply reps content
  (c, c != content)

/-- One entry of the wave-4 variant (`execute_wave4_updates.py` lines
29-34): the same replacement guarded by `if pattern in content`, with a
counter of entries that fired. -/
def w4Step (acc : List Char × Nat) (e : List Char × List Char) : List Char × Nat :=
  if iconLit (reEscape e.1) <:+: acc.1 then
    (replaceFirst acc.1 (iconLit (reEscape e.1)) (iconLit e.2), acc.2 + 1)
  else acc

/-- The wave-4 direct-mode loop, starting from the file content and a
zero counter. -/
def w4Apply (reps : List (List Char × List Char)) (content : List Char) :
    List Char × Nat :=
  reps.foldl w4Step (content, 0)

/-- The literal anchor text `id: 'a',` produced by the anchored-mode
pattern `id:\s*'{a}',` when the whitespace is the single space of the
data files. -/
def anchorLit (a : List Char) : List Char :=
  'i' :: 'd' :: ':' :: ' ' :: q :: (a ++ [q, ','])

/-- The literal text `icon:{sp}'v'` with explicit whitespace `sp` between
the colon and the opening quote, as matched by `icon:\s*'[^']+'`. -/
def iconField (sp v : List Char) : List Char :=
  'i' :: 'c' :: 'o' :: 'n' :: ':' :: (sp ++ q :: (v ++ [q]))

/-- The literal `id:`. -/
def idColon : List Char := ['i', 'd', ':']

/-- The literal `icon:`. -/
def iconColon : List Char := ['i', 'c', 'o', 'n', ':']

/-- Match of the regex fragment `id:\s*'{a}',` at the head of `s`
(deterministic: the greedy `\s*` must be followed by the quote).  Returns
the number of characters consumed. -/
def matchAnchor (a s : List Char) : Option Nat :=
  if idColon <+: s ∧ (q :: (a ++ [q, ','])) <+: (s.drop 3).dropWhile isPySpace then
    some (6 + ((s.drop 3).takeWhile isPySpace).length + a.length)
  else none

/-- Match of the regex fragment `icon:\s*'[^']+'` at the head of `s`: the
literal `icon:`, greedy whitespace, an opening quote, a nonempty maximal
run of non-quote characters, and a closing quote.  Returns the number of
characters consumed. -/
def matchIcon (s : List Char) : Option Nat :=
  if iconColon <+: s then
    match (s.drop 5).dropWhile isPySpace with
    | [] => none
    | c :: r3 =>
      if c = q then
        match r3.dropWhile (fun d => d != q) with
        | [] => none
        | _ :: _ =>
          if r3.takeWhile (fun d => d != q) = [] then none
          else some (7 + ((s.drop 5).takeWhile isPySpace).length +
                       (r3.takeWhile (fun d => d != q)).length)
      else none
  else none

/-- Leftmost match of `icon:\s*'[^']+'` in `s`: start offset and length. -/
def findIcon : List Char → Option (Nat × Nat)
  | [] => none
  | c :: cs =>
    match matchIcon (c :: cs) with
    | some l => some (0, l)
    | none => (findIcon cs).map (fun p => (p.1 + 1, p.2))

/-- Leftmost match of the full anchored pattern
`(id:\s*'{a}',[\s\S]*?)icon:\s*'[^']+'` in `s`: the match starts at the
smallest position where the anchor fragment matches and some icon
fragment occurs later; the lazy middle selects the earliest such icon
fragment.  Returns `(i, m, l)`: match start, offset from `i` to the icon
fragment (the length of capture group 1), and the icon fragment length. -/
def findMatch (a : List Char) : List Char → Option (Nat × Nat × Nat)
  | [] => none
  | c :: cs =>
    match matchAnchor a (c :: cs) with
    | some la =>
      match findIcon ((c :: cs).drop la) with
      | some (d, l) => some (0, la + d, l)
      | none => (findMatch a cs).map (fun p => (p.1 + 1, p.2))
    | none => (findMatch a cs).map (fun p => (p.1 + 1, p.2))

/-- Model of `re.sub(pattern, replacement, content, count=1)` in
`update_path_icons.update_file` (lines 179-181): replace the leftmost
match, re-emitting capture group 1 and rewriting the icon fragment to
`icon: '{nw}'`; no match leaves the text unchanged. -/
def reSubAnchorOnce (a nw t : List Char) : List Char :=
  match findMatch a t with
  | none => t
  | some (i, m, l) => t.take (i + m) ++ iconLit nw ++ t.drop (i + m + l)

/-- One anchored-mode entry. -/
def anchoredStep (content : List Char) (e : List Char × List Char) : List Char :=
  reSubAnchorOnce e.1 e.2 content

/-- The anchored-mode rewrite loop of `update_file`, for a given
iteration order of the mapping table (the source iterates a Python
`set`, whose order is not specified; the order is the list order here). -/
def anchoredApply (maps : List (List Char × List Char)) (content : List Char) : List Char :=
  maps.foldl anchoredStep content

/-- Model of `update_path_icons.update_file`, file I/O abstracted: result text and
the return value, `true` exactly when the text changed, in which case
(and only then) the file is rewritten. -/
def update_file (maps : List (List Char × List Char)) (content : List Char) :
    List Char × Bool :=
  let c := anchoredApply maps content
  (c, c != content)

/-- Python `s.replace(old, new)` (all occurrences, scanned left to right,
non-overlapping), implemented with explicit fuel so that it is
structurally recursive; `replaceAll` supplies fuel `s.length + 1`, which
is never exhausted because every step consumes at least one character. -/
def replaceAllFuel : Nat → List Char → List Char → List Char → List Char
  | 0, t, _, _ => t
  | fuel + 1, t, old, new =>
    match t with
    | [] => if old = [] then new else []
    | c :: cs =>
      if old ≠ [] ∧ old <+: (c :: cs) then
        new ++ replaceAllFuel fuel ((c :: cs).drop old.length) old new
      else if old = [] then
        new ++ c :: replaceAllFuel fuel cs old new
      else
        c :: replaceAllFuel fuel cs old new

/-- Python `s.replace(old, new)` without a count argument. -/
def replaceAll (t old new : List Char) : List Char :=
  replaceAllFuel (t.length + 1) t old new

/-- The injector's idempotency-guard name, `PATH_ABILITY_ICONS`. -/
def pathAbilityIconsName : List Char := toL "PATH_ABILITY_ICONS"

/-- The injector's insertion anchor, the comment line
`// Export all icon constants`. -/
def exportAnchor : List Char := toL "// Export all icon constants"

/-- The exact prior text of the aggregate `ALL_ICONS` export block
(`update_icons_constants.py` lines 173-181). -/
def allIconsOld : List Char :=
  toL "export const ALL_ICONS = \x7b\n  ...STAT_ICONS,\n  ...STATUS_ICONS,\n  ...POWER_ICONS,\n  ...ABILITY_ICONS,\n  ...ITEM_ICONS,\n  ...UI_ICONS,\n  ...CLASS_ICONS,\n\x7d as const;"

/-- The rewritten aggregate export block with `...PATH_ABILITY_ICONS,`
appended (`update_icons_constants.py` lines 183-192). -/
def allIconsNew : List Char :=
  toL "export const ALL_ICONS = \x7b\n  ...STAT_ICONS,\n  ...STATUS_ICONS,\n  ...POWER_ICONS,\n  ...ABILITY_ICONS,\n  ...ITEM_ICONS,\n  ...UI_ICONS,\n  ...CLASS_ICONS,\n  ...PATH_ABILITY_ICONS,\n\x7d as const;"

/-- Model of `update_icons_constants.update_icons_constants`, file I/O abstracted.
The 140-line generated constants section is the parameter `blockBody`; in
the source it is a fixed literal that contains the substring
`PATH_ABILITY_ICONS`.  If the guard name already occurs, return the text
unchanged with `false` and do not write; otherwise insert `blockBody`
before every occurrence of the anchor, rewrite the aggregate export, and
return `true` — the source then writes the file unconditionally, whether
or not anything changed. -/
def update_icons_constants (blockBody content : List Char) : List Char × Bool :=
  if pathAbilityIconsName <:+: content then (content, false)
  else
    (replaceAll (replaceAll content exportAnchor (blockBody ++ exportAnchor))
       allIconsOld allIconsNew, true)

theorem replaceFirst_eq_self (t old new : List Char) (h : ¬ old <:+: t) :
    replaceFirst t old new = t := by
  induction t with
  | nil =>
    have hne : old ≠ [] := by rintro rfl; exact h (List.nil_infix)
    simp [replaceFirst, hne]
  | cons c cs ih =>
    have hp : ¬ old <+: (c :: cs) := fun hp => h (List.IsPrefix.isInfix hp)
    have hi : ¬ old <:+: cs := fun hi => h (List.infix_cons hi)
    simp [replaceFirst, hp, ih hi]

theorem replaceFirst_split (pre old suf new : List Char)
    (h : ∀ i < pre.length, ¬ old <+: ((pre ++ old ++ suf).drop i)) :
    replaceFirst (pre ++ old ++ suf) old new = pre ++ new ++ suf := by
  induction pre with
  | nil =>
    simp only [List.nil_append]
    cases old with
    | nil =>
      cases suf with
      | nil => simp [replaceFirst]
      | cons c cs => simp [replaceFirst, List.nil_prefix]
    | cons a as =>
      show replaceFirst (a :: (as ++ suf)) (a :: as) new = new ++ suf
      rw [replaceFirst, if_pos ⟨suf, by simp⟩]
      show new ++ (a :: (as ++ suf)).drop (as.length + 1) = new ++ suf
      rw [List.drop_succ_cons, List.drop_left]
  | cons p ps ih =>
    have h0 : ¬ old <+: (p :: (ps ++ old ++ suf)) := by
      have := h 0 (by simp)
      simpa using this
    have hrest : ∀ i < ps.length, ¬ old <+: ((ps ++ old ++ suf).drop i) := by
      intro i hi
      have := h (i + 1) (by simpa using Nat.succ_lt_succ hi)
      simpa using this
    show replaceFirst (p :: (ps ++ old ++ suf)) old new = p :: (ps ++ new ++ suf)
    rw [replaceFirst, if_neg h0, ih hrest]

theorem directApply_cons (e : List Char × List Char)
    (reps : List (List Char × List Char)) (t : List Char) :
    directApply (e :: reps) t = directApply reps (directStep t e) := rfl

theorem directApply_eq_self (reps : List (List Char × List Char)) (t : List Char)
    (h : ∀ e ∈ reps, ¬ iconLit (reEscape e.1) <:+: t) :
    directApply reps t = t := by
  induction reps with
  | nil => rfl
  | cons e rs ih =>
    rw [directApply_cons]
    have he : directStep t e = t :=
      replaceFirst_eq_self _ _ _ (h e (by simp))
    rw [he]
    exact ih (fun e he' => h e (by simp [he']))

theorem w4Apply_cons_noop (e : List Char × List Char)
    (reps : List (List Char × List Char)) (t : List Char)
    (h : ¬ iconLit (reEscape e.1) <:+: t) :
    w4Apply (e :: reps) t = w4Apply reps t := by
  simp only [w4Apply, List.foldl_cons, w4Step, if_neg h]

theorem matchAnchor_nil (a : List Char) : matchAnchor a [] = none := by
  simp [matchAnchor, idColon]

theorem anchorLit_length (a : List Char) : (anchorLit a).length = a.length + 7 := by
  simp [anchorLit]

theorem iconField_length (sp v : List Char) :
    (iconField sp v).length = sp.length + v.length + 7 := by
  simp [iconField]; omega

theorem iconLit_length (v : List Char) : (iconLit v).length = v.length + 8 := by
  simp [iconLit]

theorem takeWhile_append_cons (p : Char → Bool) (sp : List Char) (c : Char)
    (X : List Char) (hsp : ∀ d ∈ sp, p d = true) (hc : p c = false) :
    (sp ++ c :: X).takeWhile p = sp := by
  induction sp with
  | nil => simp [hc]
  | cons s ss ih =>
    have h1 : p s = true := hsp s (by simp)
    have h2 := ih (fun d hd => hsp d (by simp [hd]))
    simp [List.takeWhile_cons, h1, h2]

theorem dropWhile_append_cons (p : Char → Bool) (sp : List Char) (c : Char)
    (X : List Char) (hsp : ∀ d ∈ sp, p d = true) (hc : p c = false) :
    (sp ++ c :: X).dropWhile p = c :: X := by
  induction sp with
  | nil => simp [hc]
  | cons s ss ih =>
    have h1 : p s = true := hsp s (by simp)
    have h2 := ih (fun d hd => hsp d (by simp [hd]))
    simp [List.dropWhile_cons, h1, h2]

theorem matchAnchor_at (a rest : List Char) :
    matchAnchor a (anchorLit a ++ rest) = some (a.length + 7) := by
  have hsp : isPySpace ' ' = true := by decide
  have hq : isPySpace q = false := by decide
  have h1 : idColon <+: (anchorLit a ++ rest) :=
    ⟨' ' :: q :: (a ++ [q, ','] ++ rest), by simp [idColon, anchorLit]⟩
  have hd3 : (anchorLit a ++ rest).drop 3 = ' ' :: q :: (a ++ [q, ','] ++ rest) := by
    simp [anchorLit]
  have hdw : ((anchorLit a ++ rest).drop 3).dropWhile isPySpace
      = q :: (a ++ [q, ','] ++ rest) := by
    rw [hd3]; simp [List.dropWhile_cons, hsp, hq]
  have htw : ((anchorLit a ++ rest).drop 3).takeWhile isPySpace = [' '] := by
    rw [hd3]; simp [List.takeWhile_cons, hsp, hq]
  have h2 : (q :: (a ++ [q, ','])) <+: ((anchorLit a ++ rest).drop 3).dropWhile isPySpace := by
    rw [hdw]
    exact ⟨rest, by simp⟩
  unfold matchAnchor
  rw [if_pos ⟨h1, h2⟩, htw]
  exact congrArg some (by simp; omega)

theorem matchIcon_at (sp v rest : List Char) (hsp : ∀ c ∈ sp, isPySpace c = true)
    (hv : v ≠ []) (hvq : q ∉ v) :
    matchIcon (iconField sp v ++ rest) = some (sp.length + v.length + 7) := by
  have hq : isPySpace q = false := by decide
  have h1 : iconColon <+: (iconField sp v ++ rest) :=
    ⟨sp ++ q :: (v ++ q :: rest), by simp [iconColon, iconField]⟩
  have hd5 : (iconField sp v ++ rest).drop 5 = sp ++ q :: (v ++ q :: rest) := by
    simp [iconField]
  have hdw : ((iconField sp v ++ rest).drop 5).dropWhile isPySpace
      = q :: (v ++ q :: rest) := by
    rw [hd5]; exact dropWhile_append_cons _ sp q _ hsp hq
  have htw : ((iconField sp v ++ rest).drop 5).takeWhile isPySpace = sp := by
    rw [hd5]; exact takeWhile_append_cons _ sp q _ hsp hq
  have hvp : ∀ d ∈ v, (d != q) = true := fun d hd => by
    simp only [bne_iff_ne, ne_eq]
    exact fun e => hvq (e ▸ hd)
  have hqq : (q != q) = false := by simp
  have htv : (v ++ q :: rest).takeWhile (fun d => d != q) = v :=
    takeWhile_append_cons _ v q rest hvp hqq
  have hdv : (v ++ q :: rest).dropWhile (fun d => d != q) = q :: rest :=
    dropWhile_append_cons _ v q rest hvp hqq
  unfold matchIcon
  rw [if_pos h1, hdw]
  simp only [htv, hdv, htw, if_pos rfl]
  rw [if_neg hv]
  exact congrArg some (by omega)

theorem findIcon_at (sp v rest : List Char) (hsp : ∀ c ∈ sp, isPySpace c = true)
    (hv : v ≠ []) (hvq : q ∉ v) :
    findIcon (iconField sp v ++ rest) = some (0, sp.length + v.length + 7) := by
  have hm := matchIcon_at sp v rest hsp hv hvq
  have hcc : iconField sp v ++ rest
      = 'i' :: ('c' :: 'o' :: 'n' :: ':' :: (sp ++ q :: (v ++ q :: rest))) := by
    simp [iconField]
  rw [hcc] at hm ⊢
  simp [findIcon, hm]

theorem findIcon_prepend (mid rest : List Char)
    (h : ∀ k < mid.length, matchIcon (mid.drop k ++ rest) = none)
    (d l : Nat) (hr : findIcon rest = some (d, l)) :
    findIcon (mid ++ rest) = some (mid.length + d, l) := by
  induction mid with
  | nil => simpa using hr
  | cons c cs ih =>
    have h0 : matchIcon (c :: (cs ++ rest)) = none := by simpa using h 0 (by simp)
    have ihh := ih (fun k hk => by simpa using h (k + 1) (by simpa using Nat.succ_lt_succ hk))
    show findIcon (c :: (cs ++ rest)) = _
    rw [findIcon, h0, ihh]
    simp
    omega

theorem findMatch_cons_none (a : List Char) (c : Char) (cs : List Char)
    (h : matchAnchor a (c :: cs) = none) :
    findMatch a (c :: cs) = (findMatch a cs).map (fun p => (p.1 + 1, p.2)) := by
  rw [findMatch, h]

theorem findMatch_eq_none (a u : List Char)
    (h : ∀ i, matchAnchor a (u.drop i) = none) : findMatch a u = none := by
  induction u with
  | nil => rfl
  | cons c cs ih =>
    have h0 : matchAnchor a (c :: cs) = none := by simpa using h 0
    rw [findMatch_cons_none a c cs h0, ih (fun i => by simpa using h (i + 1))]
    rfl

theorem findMatch_at (a rest : List Char) (d l : Nat)
    (hi : findIcon rest = some (d, l)) :
    findMatch a (anchorLit a ++ rest) = some (0, a.length + 7 + d, l) := by
  have h1 := matchAnchor_at a rest
  have h2 : (anchorLit a ++ rest).drop (a.length + 7) = rest :=
    List.drop_left' (by rw [anchorLit_length])
  have hcc : anchorLit a ++ rest
      = 'i' :: ('d' :: ':' :: ' ' :: q :: (a ++ [q, ','] ++ rest)) := by
    simp [anchorLit]
  rw [hcc] at h1 h2 ⊢
  rw [findMatch, h1]
  simp [h2, hi]

theorem findMatch_prepend (a pre rest : List Char)
    (h : ∀ i < pre.length, matchAnchor a (pre.drop i ++ rest) = none)
    (i m l : Nat) (hr : findMatch a rest = some (i, m, l)) :
    findMatch a (pre ++ rest) = some (pre.length + i, m, l) := by
  induction pre with
  | nil => simpa using hr
  | cons c cs ih =>
    have h0 : matchAnchor a (c :: (cs ++ rest)) = none := by simpa using h 0 (by simp)
    have ihh := ih (fun k hk => by simpa using h (k + 1) (by simpa using Nat.succ_lt_succ hk))
    show findMatch a (c :: (cs ++ rest)) = _
    rw [findMatch_cons_none a c (cs ++ rest) h0, ihh]
    simp
    omega

theorem reSubAnchorOnce_eq_self (a nw t : List Char) (h : findMatch a t = none) :
    reSubAnchorOnce a nw t = t := by
  rw [reSubAnchorOnce, h]

theorem reSub_split (a nw pre mid sp v suf : List Char)
    (hsp : ∀ c ∈ sp, isPySpace c = true) (hv : v ≠ []) (hvq : q ∉ v)
    (hpre : ∀ i < pre.length,
      matchAnchor a (pre.drop i ++ (anchorLit a ++ (mid ++ (iconField sp v ++ suf)))) = none)
    (hmid : ∀ k < mid.length, matchIcon (mid.drop k ++ (iconField sp v ++ suf)) = none) :
    reSubAnchorOnce a nw (pre ++ (anchorLit a ++ (mid ++ (iconField sp v ++ suf))))
      = pre ++ (anchorLit a ++ (mid ++ (iconLit nw ++ suf))) := by
  have hfi : findIcon (iconField sp v ++ suf) = some (0, sp.length + v.length + 7) :=
    findIcon_at sp v suf hsp hv hvq
  have hfi2 : findIcon (mid ++ (iconField sp v ++ suf))
      = some (mid.length + 0, sp.length + v.length + 7) :=
    findIcon_prepend mid _ hmid _ _ hfi
  have hfm : findMatch a (anchorLit a ++ (mid ++ (iconField sp v ++ suf)))
      = some (0, a.length + 7 + (mid.length + 0), sp.length + v.length + 7) :=
    findMatch_at a _ _ _ hfi2
  have hfm2 : findMatch a (pre ++ (anchorLit a ++ (mid ++ (iconField sp v ++ suf))))
      = some (pre.length + 0, a.length + 7 + (mid.length + 0), sp.length + v.length + 7) :=
    findMatch_prepend a pre _ hpre _ _ _ hfm
  rw [reSubAnchorOnce, hfm2]
  have hassoc : pre ++ (anchorLit a ++ (mid ++ (iconField sp v ++ suf)))
      = ((pre ++ anchorLit a ++ mid) ++ iconField sp v) ++ suf := by
    simp [List.append_assoc]
  have htake : (pre ++ (anchorLit a ++ (mid ++ (iconField sp v ++ suf)))).take
      (pre.length + 0 + (a.length + 7 + (mid.length + 0))) = pre ++ anchorLit a ++ mid := by
    rw [hassoc, List.append_assoc (pre ++ anchorLit a ++ mid)]
    exact List.take_left' (by simp [anchorLit_length])
  have hdrop : (pre ++ (anchorLit a ++ (mid ++ (iconField sp v ++ suf)))).drop
      (pre.length + 0 + (a.length + 7 + (mid.length + 0)) + (sp.length + v.length + 7))
      = suf := by
    rw [hassoc]
    exact List.drop_left' (by simp [anchorLit_length, iconField_length]; omega)
  simp only [htake, hdrop]
  simp [List.append_assoc]

theorem anchoredApply_cons (e : List Char × List Char)
    (maps : List (List Char × List Char)) (t : List Char) :
    anchoredApply (e :: maps) t = anchoredApply maps (anchoredStep t e) := rfl

theorem anchoredApply_eq_self (maps : List (List Char × List Char)) (t : List Char)
    (h : ∀ e ∈ maps, findMatch e.1 t = none) : anchoredApply maps t = t := by
  induction maps with
  | nil => rfl
  | cons e ms ih =>
    rw [anchoredApply_cons]
    have he : anchoredStep t e = t := reSubAnchorOnce_eq_self _ _ _ (h e (by simp))
    rw [he]
    exact ih (fun e he' => h e (by simp [he']))

theorem replaceAllFuel_eq_self (fuel : Nat) (t old new : List Char)
    (hf : t.length < fuel) (h : ¬ old <:+: t) :
    replaceAllFuel fuel t old new = t := by
  induction fuel generalizing t with
  | zero => exact absurd hf (Nat.not_lt_zero _)
  | succ f ih =>
    cases t with
    | nil =>
      have hne : old ≠ [] := fun e => h (e ▸ List.nil_infix)
      simp [replaceAllFuel, hne]
    | cons c cs =>
      have h1 : ¬ (old ≠ [] ∧ old <+: (c :: cs)) := fun hc => h (List.IsPrefix.isInfix hc.2)
      have h2 : old ≠ [] := fun e => h (e ▸ List.nil_infix)
      have h3 : ¬ old <:+: cs := fun hi => h (List.infix_cons hi)
      have hlen : cs.length < f := by simpa using Nat.lt_of_succ_lt_succ hf
      simp only [replaceAllFuel, if_neg h1, if_neg h2]
      rw [ih cs hlen h3]

theorem replaceAll_eq_self (t old new : List Char) (h : ¬ old <:+: t) :
    replaceAll t old new = t :=
  replaceAllFuel_eq_self _ _ _ _ (Nat.lt_succ_self _) h

theorem infix_replaceAllFuel (fuel : Nat) (t old new : List Char) (hne : old ≠ [])
    (hf : t.length < fuel) (h : old <:+: t) :
    new <:+: replaceAllFuel fuel t old new := by
  induction fuel generalizing t with
  | zero => exact absurd hf (Nat.not_lt_zero _)
  | succ f ih =>
    cases t with
    | nil =>
      have : old = [] := by simpa using h
      exact absurd this hne
    | cons c cs =>
      by_cases hp : old <+: (c :: cs)
      · simp only [replaceAllFuel]
        rw [if_pos (show old ≠ [] ∧ old <+: (c :: cs) from ⟨hne, hp⟩)]
        exact List.IsPrefix.isInfix (List.prefix_append new _)
      · have h1 : ¬ (old ≠ [] ∧ old <+: (c :: cs)) := fun hc => hp hc.2
        have hcs : old <:+: cs := by
          rcases List.infix_cons_iff.mp h with h2 | h2
          · exact absurd h2 hp
          · exact h2
        have hlen : cs.length < f := by simpa using Nat.lt_of_succ_lt_succ hf
        simp only [replaceAllFuel, if_neg h1, if_neg hne]
        exact List.infix_cons (ih cs hlen hcs)

theorem infix_replaceAll (t old new : List Char) (hne : old ≠ []) (h : old <:+: t) :
    new <:+: replaceAll t old new :=
  infix_replaceAllFuel _ _ _ _ hne (Nat.lt_succ_self _) h

/-- Claim C1, counterexample: on a text that contains neither the block
name, nor the anchor, nor the aggregate block, `update_icons_constants`
returns the unchanged text with success `true` (the source then writes
the file and prints a success message) — a silently-unchanged success
rather than the fatal condition the claim requires. -/
theorem C1_counterexample :
    update_icons_constants [] (toL "hello") = (toL "hello", true) := by decide

/-- Claim C1, amended: when the anchor is absent (and the idempotency
guard does not fire), the injection inserts nothing, yet
`update_icons_constants` still returns the text with success `true` and
the source writes the file; no fatal condition distinct from the
idempotency no-op is signalled. -/
theorem C1_amended_silent_success (blockBody text : List Char)
    (h1 : ¬ pathAbilityIconsName <:+: text)
    (h2 : ¬ exportAnchor <:+: text)
    (h3 : ¬ allIconsOld <:+: text) :
    update_icons_constants blockBody text = (text, true) := by
  unfold update_icons_constants
  rw [if_neg h1, replaceAll_eq_self _ _ _ h2, replaceAll_eq_self _ _ _ h3]

/-- Witness for the amended claim C1 at a concrete input. -/
theorem C1_witness :
    (¬ pathAbilityIconsName <:+: toL "abc") ∧ (¬ exportAnchor <:+: toL "abc") ∧
    (¬ allIconsOld <:+: toL "abc") ∧
    update_icons_constants [] (toL "abc") = (toL "abc", true) :=
  ⟨by decide, by decide, by decide,
    C1_amended_silent_success [] (toL "abc") (by decide) (by decide) (by decide)⟩

/-- Claim C2, counterexample: the Section Injector writes even when the
transformed text equals the original — on a marker-free text the result
is unchanged, yet the function reaches its unconditional write and
returns success. -/
theorem C2_counterexample :
    (update_icons_constants [] (toL "no markers in this file")).1
        = toL "no markers in this file" ∧
    (update_icons_constants [] (toL "no markers in this file")).2 = true := by
  decide

/-- Claim C2, amended: the two rewriters overwrite the file exactly when
the transformed text differs from the original (their boolean result is
`true` iff the text changed, and the source writes exactly when it is
`true`); the Section Injector however writes unconditionally whenever its
idempotency guard does not fire, even when the text is unchanged. -/
theorem C2_amended_conditional_write :
    (∀ reps content, ((replace_icons_in_file reps content).2 = true ↔
        (replace_icons_in_file reps content).1 ≠ content)) ∧
    (∀ maps content, ((update_file maps content).2 = true ↔
        (update_file maps content).1 ≠ content)) ∧
    (∀ blockBody content, ¬ pathAbilityIconsName <:+: content →
        (update_icons_constants blockBody content).2 = true) := by
  refine ⟨fun reps content => ?_, fun maps content => ?_, fun bb content h => ?_⟩
  · simp [replace_icons_in_file]
  · simp [update_file]
  · unfold update_icons_constants
    rw [if_neg h]

/-- Witness for the amended claim C2 at a concrete input. -/
theorem C2_witness :
    (¬ pathAbilityIconsName <:+: toL "xyz") ∧
    (update_icons_constants [] (toL "xyz")).2 = true :=
  ⟨by decide, C2_amended_conditional_write.2.2 [] (toL "xyz") (by decide)⟩

/-- Claim C3 (code bug, demonstration): the anchored-mode mapping tables
are Python sets, so the loop of `update_file` runs in an unspecified
iteration order that may differ between runs; on a document where two
anchors share their next icon field, the two iteration orders of the same
two-element mapping set produce different output texts, so the output is
not byte-identical across runs. -/
theorem C3_set_order_dependence :
    anchoredApply [(['a'], toL "NEW_A"), (['b'], toL "NEW_B")]
        (anchorLit ['a'] ++ ' ' :: (anchorLit ['b'] ++ ' ' :: iconLit ['X']))
      ≠ anchoredApply [(['b'], toL "NEW_B"), (['a'], toL "NEW_A")]
        (anchorLit ['a'] ++ ' ' :: (anchorLit ['b'] ++ ' ' :: iconLit ['X'])) := by
  decide

/-- Claim C4: the single direct-mode entry `(Flame, blood_rage)` replaces
exactly the first occurrence of `icon: 'Flame'` and leaves every later
occurrence (in `suf`) unchanged; the hypothesis says the pattern does not
occur before position `pre.length`. -/
theorem C4_direct_first_occurrence (pre suf : List Char)
    (h : ∀ i < pre.length,
      ¬ iconLit (toL "Flame") <+: ((pre ++ iconLit (toL "Flame") ++ suf).drop i)) :
    (replace_icons_in_file [(toL "Flame", toL "ability-paths-warrior-blood_rage")]
        (pre ++ iconLit (toL "Flame") ++ suf)).1
      = pre ++ iconLit (toL "ability-paths-warrior-blood_rage") ++ suf := by
  have hesc : reEscape (toL "Flame") = toL "Flame" := by decide
  show replaceFirst (pre ++ iconLit (toL "Flame") ++ suf)
      (iconLit (reEscape (toL "Flame")))
      (iconLit (toL "ability-paths-warrior-blood_rage")) = _
  rw [hesc]
  exact replaceFirst_split pre _ suf _ h

/-- Witness for claim C4 at a concrete input with two occurrences. -/
theorem C4_witness :
    (∀ i < (toL "abc ").length,
      ¬ iconLit (toL "Flame") <+:
        ((toL "abc " ++ iconLit (toL "Flame") ++ (' ' :: iconLit (toL "Flame"))).drop i)) ∧
    (replace_icons_in_file [(toL "Flame", toL "ability-paths-warrior-blood_rage")]
        (toL "abc " ++ iconLit (toL "Flame") ++ (' ' :: iconLit (toL "Flame")))).1
      = toL "abc " ++ iconLit (toL "ability-paths-warrior-blood_rage")
          ++ (' ' :: iconLit (toL "Flame")) :=
  ⟨by decide,
    C4_direct_first_occurrence (toL "abc ") (' ' :: iconLit (toL "Flame")) (by decide)⟩

/-- Claim C5: on a document consisting of a prefix (in which the anchor
pattern does not match), the anchor `id: 'blood_rage',`, intervening text
(in which no icon field starts), an icon field with arbitrary whitespace
and arbitrary nonempty quoted value, and a suffix, the anchored entry for
`blood_rage` rewrites that icon field to
`icon: 'ability-paths-warrior-blood_rage'` — regardless of the prior
value — and leaves the suffix (any later anchor/icon pairs included)
unchanged. -/
theorem C5_anchored_blood_rage (pre mid sp v suf : List Char)
    (hsp : ∀ c ∈ sp, isPySpace c = true) (hv : v ≠ []) (hvq : q ∉ v)
    (hpre : ∀ i < pre.length, matchAnchor (toL "blood_rage")
      (pre.drop i ++ (anchorLit (toL "blood_rage") ++ (mid ++ (iconField sp v ++ suf)))) = none)
    (hmid : ∀ k < mid.length, matchIcon (mid.drop k ++ (iconField sp v ++ suf)) = none) :
    reSubAnchorOnce (toL "blood_rage") (toL "ability-paths-warrior-blood_rage")
        (pre ++ (anchorLit (toL "blood_rage") ++ (mid ++ (iconField sp v ++ suf))))
      = pre ++ (anchorLit (toL "blood_rage")
          ++ (mid ++ (iconLit (toL "ability-paths-warrior-blood_rage") ++ suf))) :=
  reSub_split _ _ pre mid sp v suf hsp hv hvq hpre hmid

/-- Witness for claim C5: the spec's own example record
`id: 'blood_rage', name: 'Blood Rage', icon: 'Flame',`. -/
theorem C5_witness :
    (∀ c ∈ [' '], isPySpace c = true) ∧ (toL "Flame" ≠ []) ∧ (q ∉ toL "Flame") ∧
    (∀ i < (toL "x, ").length, matchAnchor (toL "blood_rage")
      ((toL "x, ").drop i ++ (anchorLit (toL "blood_rage")
        ++ ((' ' :: (toL "name: " ++ q :: (toL "Blood Rage" ++ [q, ','])))
          ++ (iconField [' '] (toL "Flame") ++ [','])))) = none) ∧
    (∀ k < (' ' :: (toL "name: " ++ q :: (toL "Blood Rage" ++ [q, ',']))).length,
      matchIcon ((' ' :: (toL "name: " ++ q :: (toL "Blood Rage" ++ [q, ',']))).drop k
        ++ (iconField [' '] (toL "Flame") ++ [','])) = none) ∧
    reSubAnchorOnce (toL "blood_rage") (toL "ability-paths-warrior-blood_rage")
        (toL "x, " ++ (anchorLit (toL "blood_rage")
          ++ ((' ' :: (toL "name: " ++ q :: (toL "Blood Rage" ++ [q, ','])))
            ++ (iconField [' '] (toL "Flame") ++ [',']))))
      = toL "x, " ++ (anchorLit (toL "blood_rage")
          ++ ((' ' :: (toL "name: " ++ q :: (toL "Blood Rage" ++ [q, ','])))
            ++ (iconLit (toL "ability-paths-warrior-blood_rage") ++ [',']))) :=
  ⟨by decide, by decide, by decide, by decide, by decide,
    C5_anchored_blood_rage (toL "x, ")
      (' ' :: (toL "name: " ++ q :: (toL "Blood Rage" ++ [q, ','])))
      [' '] (toL "Flame") [','] (by decide) (by decide) (by decide) (by decide) (by decide)⟩

/-- Claim C6, counterexample: a second run of the same direct-mode
mapping is not a no-op when the pattern occurs more often than its
entries — the entry `(A, B)` on `icon: 'A' icon: 'A'` rewrites the first
occurrence on the first run and the second occurrence on the second
run. -/
theorem C6_counterexample :
    directApply [(['A'], ['B'])]
        (directApply [(['A'], ['B'])] (iconLit ['A'] ++ ' ' :: iconLit ['A']))
      ≠ directApply [(['A'], ['B'])] (iconLit ['A'] ++ ' ' :: iconLit ['A']) := by
  decide

/-- Claim C6, amended: the second run leaves the text unchanged exactly
under the condition the spec itself attaches — every entry must be a
no-op on the first run's output: in direct mode its (escaped) match
pattern must not occur there, in anchored mode its anchor pattern must
not match there.  Under that condition double application is
idempotent in both modes. -/
theorem C6_amended_second_run_noop (reps maps : List (List Char × List Char))
    (t u : List Char)
    (hd : ∀ e ∈ reps, ¬ iconLit (reEscape e.1) <:+: directApply reps t)
    (ha : ∀ e ∈ maps, findMatch e.1 (anchoredApply maps u) = none) :
    directApply reps (directApply reps t) = directApply reps t ∧
    anchoredApply maps (anchoredApply maps u) = anchoredApply maps u :=
  ⟨directApply_eq_self reps _ hd, anchoredApply_eq_self maps _ ha⟩

/-- Witness for the amended claim C6 at concrete inputs. -/
theorem C6_witness :
    (∀ e ∈ [(toL "Flame", toL "ability-paths-warrior-blood_rage")],
      ¬ iconLit (reEscape e.1) <:+:
        directApply [(toL "Flame", toL "ability-paths-warrior-blood_rage")]
          (iconLit (toL "Flame"))) ∧
    (∀ e ∈ [(toL "blood_rage", toL "z")],
      findMatch e.1 (anchoredApply [(toL "blood_rage", toL "z")] (toL "nope")) = none) ∧
    directApply [(toL "Flame", toL "ability-paths-warrior-blood_rage")]
        (directApply [(toL "Flame", toL "ability-paths-warrior-blood_rage")]
          (iconLit (toL "Flame")))
      = directApply [(toL "Flame", toL "ability-paths-warrior-blood_rage")]
          (iconLit (toL "Flame")) ∧
    anchoredApply [(toL "blood_rage", toL "z")]
        (anchoredApply [(toL "blood_rage", toL "z")] (toL "nope"))
      = anchoredApply [(toL "blood_rage", toL "z")] (toL "nope") := by
  have h := C6_amended_second_run_noop
    [(toL "Flame", toL "ability-paths-warrior-blood_rage")]
    [(toL "blood_rage", toL "z")] (iconLit (toL "Flame")) (toL "nope")
    (by decide) (by decide)
  exact ⟨by decide, by decide, h.1, h.2⟩

/-- Claim C7: the injector's idempotency guard — a text already
containing `PATH_ABILITY_ICONS` is returned unchanged with `false` and no
write occurs; and after one successful injection (anchor present, block
absent, the injected block containing its own name, as the source's
literal block does), a second call returns the once-injected text
unchanged with `false`. -/
theorem C7_injector_idempotency (blockBody text : List Char)
    (hbb : pathAbilityIconsName <:+: blockBody)
    (htxt : ¬ pathAbilityIconsName <:+: text)
    (hanc : exportAnchor <:+: text) :
    (update_icons_constants blockBody text).2 = true ∧
    update_icons_constants blockBody (update_icons_constants blockBody text).1
      = ((update_icons_constants blockBody text).1, false) ∧
    (∀ t, pathAbilityIconsName <:+: t →
      update_icons_constants blockBody t = (t, false)) := by
  have hguard : ∀ t, pathAbilityIconsName <:+: t →
      update_icons_constants blockBody t = (t, false) := by
    intro t ht
    unfold update_icons_constants
    rw [if_pos ht]
  have hres : (update_icons_constants blockBody text).1
      = replaceAll (replaceAll text exportAnchor (blockBody ++ exportAnchor))
          allIconsOld allIconsNew := by
    unfold update_icons_constants
    rw [if_neg htxt]
  have h1 : (blockBody ++ exportAnchor) <:+:
      replaceAll text exportAnchor (blockBody ++ exportAnchor) :=
    infix_replaceAll _ _ _ (by decide) hanc
  have hbn1 : pathAbilityIconsName <:+:
      replaceAll text exportAnchor (blockBody ++ exportAnchor) :=
    (hbb.trans (List.IsPrefix.isInfix (List.prefix_append blockBody exportAnchor))).trans h1
  have hbn2 : pathAbilityIconsName <:+: (update_icons_constants blockBody text).1 := by
    rw [hres]
    by_cases hold : allIconsOld <:+:
        replaceAll text exportAnchor (blockBody ++ exportAnchor)
    · have hnew : allIconsNew <:+:
          replaceAll (replaceAll text exportAnchor (blockBody ++ exportAnchor))
            allIconsOld allIconsNew :=
        infix_replaceAll _ _ _ (by decide) hold
      have hm : pathAbilityIconsName <:+: allIconsNew := by decide
      exact hm.trans hnew
    · rw [replaceAll_eq_self _ _ _ hold]
      exact hbn1
  refine ⟨?_, hguard _ hbn2, hguard⟩
  unfold update_icons_constants
  rw [if_neg htxt]

/-- Witness for claim C7 at a concrete input. -/
theorem C7_witness :
    pathAbilityIconsName <:+: (pathAbilityIconsName ++ toL " body") ∧
    (¬ pathAbilityIconsName <:+: exportAnchor) ∧
    exportAnchor <:+: exportAnchor ∧
    (update_icons_constants (pathAbilityIconsName ++ toL " body") exportAnchor).2
      = true :=
  ⟨by decide, by decide, by decide,
    (C7_injector_idempotency (pathAbilityIconsName ++ toL " body") exportAnchor
      (by decide) (by decide) (by decide)).1⟩

/-- Claim C8, counterexample: the aggregate append's outcome is not
reported separately — the function's only status is its boolean result,
which is `true` both on a document where the aggregate block is present
(the append fires) and on one where it is absent (the append no-ops). -/
theorem C8_counterexample :
    (update_icons_constants (toL "BODY") (exportAnchor ++ allIconsOld)).2
      = (update_icons_constants (toL "BODY") exportAnchor).2 ∧
    allIconsNew <:+:
      (update_icons_constants (toL "BODY") (exportAnchor ++ allIconsOld)).1 ∧
    ¬ allIconsNew <:+: (update_icons_constants (toL "BODY") exportAnchor).1 := by
  decide

/-- Claim C8, amended: the primary insertion and the aggregate append act
independently (when the aggregate block's prior text is absent the append
is a no-op leaving the primary result intact; when the anchor is absent
the primary step is a no-op and the append is still applied), but neither
outcome is reported: the function returns `true` in both cases. -/
theorem C8_amended_independent_noop :
    (∀ blockBody t, ¬ pathAbilityIconsName <:+: t →
      ¬ allIconsOld <:+: replaceAll t exportAnchor (blockBody ++ exportAnchor) →
      update_icons_constants blockBody t
        = (replaceAll t exportAnchor (blockBody ++ exportAnchor), true)) ∧
    (∀ blockBody t, ¬ pathAbilityIconsName <:+: t → ¬ exportAnchor <:+: t →
      update_icons_constants blockBody t
        = (replaceAll t allIconsOld allIconsNew, true)) := by
  constructor
  · intro bb t h1 h2
    unfold update_icons_constants
    rw [if_neg h1, replaceAll_eq_self _ _ _ h2]
  · intro bb t h1 h2
    unfold update_icons_constants
    rw [if_neg h1, replaceAll_eq_self _ _ _ h2]

/-- Witness for the amended claim C8 at a concrete input. -/
theorem C8_witness :
    (¬ pathAbilityIconsName <:+: toL "tail") ∧
    (¬ allIconsOld <:+: replaceAll (toL "tail") exportAnchor (toL "B" ++ exportAnchor)) ∧
    (¬ exportAnchor <:+: toL "tail") ∧
    update_icons_constants (toL "B") (toL "tail")
      = (replaceAll (toL "tail") exportAnchor (toL "B" ++ exportAnchor), true) ∧
    update_icons_constants (toL "B") (toL "tail")
      = (replaceAll (toL "tail") allIconsOld allIconsNew, true) :=
  ⟨by decide, by decide, by decide,
    C8_amended_independent_noop.1 (toL "B") (toL "tail") (by decide) (by decide),
    C8_amended_independent_noop.2 (toL "B") (toL "tail") (by decide) (by decide)⟩

/-- Claim C9: an entry whose (escaped) match pattern does not occur
(direct mode and its wave-4 variant) or whose anchor pattern matches
nowhere (anchored mode) leaves the text unchanged by that entry, and the
remaining entries are still processed in order. -/
theorem C9_silent_noop (o n a nw : List Char)
    (reps maps : List (List Char × List Char)) (t u : List Char)
    (hd : ¬ iconLit (reEscape o) <:+: t)
    (ha : ∀ i < u.length, matchAnchor a (u.drop i) = none) :
    directApply ((o, n) :: reps) t = directApply reps t ∧
    w4Apply ((o, n) :: reps) t = w4Apply reps t ∧
    anchoredApply ((a, nw) :: maps) u = anchoredApply maps u := by
  have hall : ∀ i, matchAnchor a (u.drop i) = none := by
    intro i
    by_cases hi : i < u.length
    · exact ha i hi
    · rw [List.drop_eq_nil_of_le (by omega)]
      exact matchAnchor_nil a
  refine ⟨?_, w4Apply_cons_noop _ _ _ hd, ?_⟩
  · rw [directApply_cons]
    have hs : directStep t (o, n) = t := replaceFirst_eq_self _ _ _ hd
    rw [hs]
  · rw [anchoredApply_cons]
    have hs : anchoredStep u (a, nw) = u :=
      reSubAnchorOnce_eq_self _ _ _ (findMatch_eq_none a u hall)
    rw [hs]

/-- Witness for claim C9 at concrete inputs. -/
theorem C9_witness :
    (¬ iconLit (reEscape (toL "Zap")) <:+: toL "hello") ∧
    (∀ i < (toL "hi").length,
      matchAnchor (toL "blood_rage") ((toL "hi").drop i) = none) ∧
    directApply [(toL "Zap", toL "z")] (toL "hello") = directApply [] (toL "hello") ∧
    w4Apply [(toL "Zap", toL "z")] (toL "hello") = w4Apply [] (toL "hello") ∧
    anchoredApply [(toL "blood_rage", toL "z")] (toL "hi")
      = anchoredApply [] (toL "hi") := by
  have h := C9_silent_noop (toL "Zap") (toL "z") (toL "blood_rage") (toL "z")
    [] [] (toL "hello") (toL "hi") (by decide) (by decide)
  exact ⟨by decide, by decide, h.1, h.2.1, h.2.2⟩

/-- Claim C10, counterexample: the anchored rewrite does not only change
the quoted value — on `id: 'a',icon:'X'` (no space after `icon:`) the
entry `(a, x)` produces `id: 'a',icon: 'x'`, inserting a space byte
outside the quoted value, instead of the `id: 'a',icon:'x'` the claim
predicts. -/
theorem C10_counterexample :
    reSubAnchorOnce ['a'] ['x'] (anchorLit ['a'] ++ iconField [] ['X'])
        = anchorLit ['a'] ++ iconField [' '] ['x'] ∧
    reSubAnchorOnce ['a'] ['x'] (anchorLit ['a'] ++ iconField [] ['X'])
        ≠ anchorLit ['a'] ++ iconField [] ['x'] := by
  decide

/-- Claim C10, amended frame property: when an anchored entry applies,
the changed bytes are confined to the matched `icon:\s*'value'` span,
which is rewritten to `icon: 'replacement'` (the separator is normalized
to a single space); everything before the anchor, the anchor itself, the
intervening text, and everything after the closing quote are preserved
byte for byte. -/
theorem C10_amended_frame (a nw pre mid sp v suf : List Char)
    (hsp : ∀ c ∈ sp, isPySpace c = true) (hv : v ≠ []) (hvq : q ∉ v)
    (hpre : ∀ i < pre.length, matchAnchor a
      (pre.drop i ++ (anchorLit a ++ (mid ++ (iconField sp v ++ suf)))) = none)
    (hmid : ∀ k < mid.length, matchIcon (mid.drop k ++ (iconField sp v ++ suf)) = none) :
    reSubAnchorOnce a nw (pre ++ (anchorLit a ++ (mid ++ (iconField sp v ++ suf))))
        = pre ++ (anchorLit a ++ (mid ++ (iconLit nw ++ suf))) ∧
    (reSubAnchorOnce a nw (pre ++ (anchorLit a ++ (mid ++ (iconField sp v ++ suf))))).take
        (pre.length + (a.length + 7) + mid.length) = pre ++ anchorLit a ++ mid ∧
    (reSubAnchorOnce a nw (pre ++ (anchorLit a ++ (mid ++ (iconField sp v ++ suf))))).drop
        (pre.length + (a.length + 7) + mid.length + (nw.length + 8)) = suf := by
  have hmain := reSub_split a nw pre mid sp v suf hsp hv hvq hpre hmid
  refine ⟨hmain, ?_, ?_⟩
  · rw [hmain]
    have hshape : pre ++ (anchorLit a ++ (mid ++ (iconLit nw ++ suf)))
        = (pre ++ anchorLit a ++ mid) ++ (iconLit nw ++ suf) := by simp
    rw [hshape]
    exact List.take_left' (by simp [anchorLit_length]; try omega)
  · rw [hmain]
    have hshape : pre ++ (anchorLit a ++ (mid ++ (iconLit nw ++ suf)))
        = ((pre ++ anchorLit a ++ mid) ++ iconLit nw) ++ suf := by simp
    rw [hshape]
    exact List.drop_left' (by simp [anchorLit_length, iconLit_length]; try omega)

/-- Witness for the amended claim C10 at a concrete input. -/
theorem C10_witness :
    (∀ c ∈ ([] : List Char), isPySpace c = true) ∧ (['F'] ≠ ([] : List Char)) ∧
    (q ∉ ['F']) ∧
    (∀ i < ([] : List Char).length, matchAnchor ['a']
      (([] : List Char).drop i ++ (anchorLit ['a']
        ++ ([' '] ++ (iconField [] ['F'] ++ [',']))) ) = none) ∧
    (∀ k < [' '].length,
      matchIcon ([' '].drop k ++ (iconField [] ['F'] ++ [','])) = none) ∧
    reSubAnchorOnce ['a'] ['z'] ([] ++ (anchorLit ['a']
        ++ ([' '] ++ (iconField [] ['F'] ++ [',']))))
      = [] ++ (anchorLit ['a'] ++ ([' '] ++ (iconLit ['z'] ++ [',']))) := by
  have h := C10_amended_frame ['a'] ['z'] [] [' '] [] ['F'] [',']
    (by decide) (by decide) (by decide) (by decide) (by decide)
  exact ⟨by decide, by decide, by decide, by decide, by decide, h.1⟩
